import Mathlib

/-!
Verification of the stack-shuffling algorithm of `libyul/backends/evm/StackHelpers.h`
(`Shuffler::shuffle`, `Shuffler::shuffleStep`, the `ShuffleOperations` adapter of
`createStackLayout`, and the post-shuffle tail of `createStackLayout`).

The C++ code is shallowly embedded: the mutable current stack becomes explicit
state (a `List StackSlot` threaded through each step), the three emit hooks
become a trace of `Op` values, and `yulAssert` failures become explicit error
results.  The breadth-first search of `bringUpTargetSlot` is given a fuel
parameter; running out of fuel is reported by a constructor of its own
(`outOfFuel`), distinct from the C++ assertion failure that corresponds to an
exhausted worklist.
-/

namespace StackShuffle

/-- One stack slot, mirroring the `StackSlot` variant of the control-flow graph:
return label of a specific call, anonymous return label, variable, literal,
temporary return value of a call, or junk ("don't care").  Payloads are
abstracted to `Nat`; the shuffling code only compares slots for equality. -/
inductive StackSlot
  | functionCallReturnLabel (call : Nat)
  | functionReturnLabel
  | var (id : Nat)
  | literal (value : Nat)
  | temporary (call : Nat) (index : Nat)
  | junk
  deriving DecidableEq, Repr

/-- One emitted primitive operation, as seen by the caller-supplied hooks of
`createStackLayout`: `swap` carries the depth passed to the swap hook,
`pushOrDup` carries the slot passed to the push-or-dup hook, `pop` carries
nothing. -/
inductive Op
  | swap (depth : Nat)
  | pushOrDup (slot : StackSlot)
  | pop
  deriving DecidableEq, Repr

/-- Point update used to build the multiplicity table: add `d` to the entry of
slot `s` (a `std::map<StackSlot, int>` read as a total function that is `0` on
absent keys). -/
def bump (f : StackSlot → Int) (s : StackSlot) (d : Int) : StackSlot → Int :=
  fun x => if x = s then f x + d else f x

/-- First loop of the `ShuffleOperations` constructor:
`for (auto const& slot: currentStack) --multiplicity[slot];`. -/
def multAddCurrent (cur : List StackSlot) (f : StackSlot → Int) : StackSlot → Int :=
  cur.foldl (fun g s => bump g s (-1)) f

/-- Second loop of the `ShuffleOperations` constructor, over the enumerated
target stack: a junk target slot whose offset is within the current stack
counts for the slot currently at that offset, every other target slot counts
for itself. -/
def multAddTarget (cur : List StackSlot) : Nat → List StackSlot → (StackSlot → Int) →
    StackSlot → Int
  | _, [], f => f
  | offset, slot :: rest, f =>
      multAddTarget cur (offset + 1) rest
        (if slot = StackSlot.junk ∧ offset < cur.length
         then bump f (cur.getD offset StackSlot.junk) 1
         else bump f slot 1)

/-- The multiplicity table computed by the `ShuffleOperations` constructor. -/
def multTable (cur tgt : List StackSlot) : StackSlot → Int :=
  multAddTarget cur 0 tgt (multAddCurrent cur (fun _ => 0))

/-- `ShuffleOperations::isCompatible`: both offsets in range, and the target
slot is junk or the two slots are equal. -/
def isCompatible (cur tgt : List StackSlot) (s t : Nat) : Bool :=
  decide (s < cur.length) && decide (t < tgt.length) &&
    (decide (tgt.getD t StackSlot.junk = StackSlot.junk) ||
     decide (cur.getD s StackSlot.junk = tgt.getD t StackSlot.junk))

/-- `ShuffleOperations::sourceIsSame`: the slots at two source offsets are
equal. -/
def sourceIsSame (cur : List StackSlot) (lhs rhs : Nat) : Bool :=
  decide (cur.getD lhs StackSlot.junk = cur.getD rhs StackSlot.junk)

/-- `ShuffleOperations::sourceMultiplicity`: multiplicity of the slot at a
source offset. -/
def sourceMultiplicity (cur tgt : List StackSlot) (offset : Nat) : Int :=
  multTable cur tgt (cur.getD offset StackSlot.junk)

/-- `ShuffleOperations::targetMultiplicity`: multiplicity of the slot at a
target offset. -/
def targetMultiplicity (cur tgt : List StackSlot) (offset : Nat) : Int :=
  multTable cur tgt (tgt.getD offset StackSlot.junk)

/-- `ShuffleOperations::targetIsArbitrary`: the offset is in range and the
target slot there is junk. -/
def targetIsArbitrary (tgt : List StackSlot) (offset : Nat) : Bool :=
  decide (offset < tgt.length) && decide (tgt.getD offset StackSlot.junk = StackSlot.junk)

/-- Stop predicate of `shuffleStep`: every source offset is compatible with the
same target offset. -/
def stopHolds (cur tgt : List StackSlot) : Bool :=
  (List.range cur.length).all (fun i => isCompatible cur tgt i i)

/-- Guard of the pop clause of `shuffleStep`: the top has surplus multiplicity
and it is not the case that the target is at least as large and arbitrary at
the top position. -/
def popGuard (cur tgt : List StackSlot) : Bool :=
  decide (sourceMultiplicity cur tgt (cur.length - 1) < 0) &&
  !(decide (cur.length ≤ tgt.length) && targetIsArbitrary tgt (cur.length - 1))

/-- `ShuffleOperations::swap`: exchange the slot at depth `depth` below the top
with the top slot. -/
def swapTop (cur : List StackSlot) (depth : Nat) : List StackSlot :=
  (cur.set (cur.length - depth - 1) (cur.getD (cur.length - 1) StackSlot.junk)).set
    (cur.length - 1) (cur.getD (cur.length - depth - 1) StackSlot.junk)

/-- Scan of the "swap the top down to a lower home" clause: guarded by the top
being out of position or arbitrary in the target, it looks for the first lower
offset that is out of position, holds a slot different from the top, and wants
the top slot. -/
def swapDownOffset (cur tgt : List StackSlot) : Option Nat :=
  if !isCompatible cur tgt (cur.length - 1) (cur.length - 1) ||
     targetIsArbitrary tgt (cur.length - 1) then
    (List.range (min cur.length tgt.length)).find? (fun offset =>
      !isCompatible cur tgt offset offset &&
      !sourceIsSame cur offset (cur.length - 1) &&
      isCompatible cur tgt (cur.length - 1) offset)
  else none

/-- Scan of the "bring up the slot wanted at a surplus position" clause: the
first source offset that is out of position, has surplus multiplicity, is at
most the target size, and is not arbitrary in the target. -/
def fillOffset (cur tgt : List StackSlot) : Option Nat :=
  (List.range cur.length).find? (fun offset =>
    !isCompatible cur tgt offset offset &&
    decide (sourceMultiplicity cur tgt offset < 0) &&
    decide (offset ≤ tgt.length) &&
    !targetIsArbitrary tgt offset)

/-- Scan of the "swap a slot that wants to be at the top up" clause: guarded by
the top being out of position, it looks for the first source offset that is
out of position and compatible with the top position. -/
def swapUpOffset (cur tgt : List StackSlot) : Option Nat :=
  if !isCompatible cur tgt (cur.length - 1) (cur.length - 1) then
    (List.range cur.length).find? (fun s =>
      !isCompatible cur tgt s s && isCompatible cur tgt s (cur.length - 1))
  else none

/-- First scan of the final clause: a lower offset that is out of position and
wants the current top slot. -/
def finalSwapA (cur tgt : List StackSlot) : Option Nat :=
  (List.range cur.length).find? (fun offset =>
    !isCompatible cur tgt offset offset && isCompatible cur tgt (cur.length - 1) offset)

/-- Second scan of the final clause: a lower offset that is out of position and
holds a slot different from the top. -/
def finalSwapB (cur tgt : List StackSlot) : Option Nat :=
  (List.range cur.length).find? (fun offset =>
    !isCompatible cur tgt offset offset && !sourceIsSame cur offset (cur.length - 1))

/-- Outcome of the `bringUpTargetSlot` worklist walk, also recording every
offset taken from the worklist: either a target offset whose slot is pushed or
dupped, or an exhausted worklist (the C++ `yulAssert(false)`), or exhausted
fuel (an artifact of the embedding, not of the C++ code). -/
inductive BUTResult
  | push (offset : Nat) (dequeued : List Nat)
  | exhausted (dequeued : List Nat)
  | outOfFuel (dequeued : List Nat)
  deriving DecidableEq, Repr

/-- Offsets taken from the worklist during the walk, in order. -/
def BUTResult.dequeued : BUTResult → List Nat
  | .push _ dq => dq
  | .exhausted dq => dq
  | .outOfFuel dq => dq

/-- The worklist loop of `bringUpTargetSlot`: take the first offset, mark it
visited, push or dup it if its multiplicity is positive, otherwise enqueue
every unvisited source offset that is out of position and compatible with the
taken offset. -/
def bringUpGo (cur tgt : List StackSlot) : Nat → List Nat → List Nat → BUTResult
  | _, [], _ => .exhausted []
  | 0, _ :: _, _ => .outOfFuel []
  | fuel + 1, offset :: rest, visited =>
      let visited' := if offset ∈ visited then visited else offset :: visited
      if 0 < targetMultiplicity cur tgt offset then
        .push offset [offset]
      else
        match bringUpGo cur tgt fuel
          (rest ++ (List.range (min cur.length tgt.length)).filter (fun next =>
            !isCompatible cur tgt next next &&
            isCompatible cur tgt next offset &&
            !(decide (next ∈ visited')))) visited' with
        | .push t dq => .push t (offset :: dq)
        | .exhausted dq => .exhausted (offset :: dq)
        | .outOfFuel dq => .outOfFuel (offset :: dq)

/-- Fuel budget for the worklist walk; generous enough for every concrete run
considered here. -/
def butFuel (cur tgt : List StackSlot) : Nat :=
  (min cur.length tgt.length + 2) * (min cur.length tgt.length + 2)

/-- Result of one `shuffleStep`: the stop predicate held (`done`, C++ returns
`false`), or one operation was emitted with the updated current stack (`step`,
C++ returns `true`), or a `yulAssert` failed (`fail`), or the embedding ran
out of worklist fuel (`outOfFuel`). -/
inductive StepResult
  | done
  | step (ops : List Op) (cur : List StackSlot)
  | fail
  | outOfFuel
  deriving DecidableEq, Repr

/-- Invocation of `bringUpTargetSlot` from `shuffleStep`: on success it emits
one push-or-dup of the found target slot and appends that slot to the current
stack. -/
def stepBringUp (cur tgt : List StackSlot) (targetOffset : Nat) : StepResult :=
  match bringUpGo cur tgt (butFuel cur tgt) [targetOffset] [] with
  | .push t _ =>
      .step [Op.pushOrDup (tgt.getD t StackSlot.junk)] (cur ++ [tgt.getD t StackSlot.junk])
  | .exhausted _ => .fail
  | .outOfFuel _ => .outOfFuel

/-- `Shuffler::shuffleStep`: the single-operation case analysis, in source
order: stop predicate, pop clause, `targetSize > 0` assertion, swap-down scan,
fill scan with `bringUpTargetSlot`, the non-negative-multiplicity and size
assertions, swap-up scan, grow clause, the exact-multiplicity assertions, and
the two final swap scans ending in `yulAssert(false)`. -/
def shuffleStep (cur tgt : List StackSlot) : StepResult :=
  if stopHolds cur tgt then .done
  else if popGuard cur tgt then .step [Op.pop] cur.dropLast
  else if tgt.length = 0 then .fail
  else
    match swapDownOffset cur tgt with
    | some offset =>
        .step [Op.swap (cur.length - offset - 1)] (swapTop cur (cur.length - offset - 1))
    | none =>
        match fillOffset cur tgt with
        | some offset => stepBringUp cur tgt offset
        | none =>
            if !((List.range cur.length).all (fun i =>
                decide (0 ≤ sourceMultiplicity cur tgt i))) then .fail
            else if !(decide (cur.length ≤ tgt.length)) then .fail
            else
              match swapUpOffset cur tgt with
              | some s =>
                  .step [Op.swap (cur.length - s - 1)] (swapTop cur (cur.length - s - 1))
              | none =>
                  if cur.length < tgt.length then stepBringUp cur tgt cur.length
                  else if !(decide (cur.length = tgt.length)) then .fail
                  else if !((List.range cur.length).all (fun i =>
                      decide (sourceMultiplicity cur tgt i = 0) &&
                      (targetIsArbitrary tgt i ||
                       decide (targetMultiplicity cur tgt i = 0)))) then .fail
                  else if !(isCompatible cur tgt (cur.length - 1) (cur.length - 1)) then .fail
                  else
                    match finalSwapA cur tgt with
                    | some offset =>
                        .step [Op.swap (cur.length - offset - 1)]
                          (swapTop cur (cur.length - offset - 1))
                    | none =>
                        match finalSwapB cur tgt with
                        | some offset =>
                            .step [Op.swap (cur.length - offset - 1)]
                              (swapTop cur (cur.length - offset - 1))
                        | none => .fail

/-- Outcome of the `Shuffler::shuffle` loop, carrying the final current stack
and the trace of emitted operations: normal return, the 1000-iteration
assertion failure, a `yulAssert` failure inside a step, or exhausted worklist
fuel. -/
inductive ShuffleResult
  | ok (cur : List StackSlot) (ops : List Op)
  | nonTermination (cur : List StackSlot) (ops : List Op)
  | fail (cur : List StackSlot) (ops : List Op)
  | fuelOut (cur : List StackSlot) (ops : List Op)
  deriving DecidableEq, Repr

/-- Operation trace of a shuffle outcome. -/
def ShuffleResult.ops : ShuffleResult → List Op
  | .ok _ o => o
  | .nonTermination _ o => o
  | .fail _ o => o
  | .fuelOut _ o => o

/-- Prepend operations emitted before the rest of the run. -/
def ShuffleResult.prependOps : ShuffleResult → List Op → ShuffleResult
  | .ok c o, o1 => .ok c (o1 ++ o)
  | .nonTermination c o, o1 => .nonTermination c (o1 ++ o)
  | .fail c o, o1 => .fail c (o1 ++ o)
  | .fuelOut c o, o1 => .fuelOut c (o1 ++ o)

/-- The `Shuffler::shuffle` loop with a remaining-iteration budget: a budget of
`0` means the 1000th state-changing step has happened and the loop condition
`iterationCount < 1000` stops the loop with `needsMoreShuffling` still true,
so the non-termination assertion fires. -/
def shuffleGo (tgt : List StackSlot) : Nat → List StackSlot → ShuffleResult
  | 0, cur => .nonTermination cur []
  | budget + 1, cur =>
      match shuffleStep cur tgt with
      | .done => .ok cur []
      | .fail => .fail cur []
      | .outOfFuel => .fuelOut cur []
      | .step ops cur' => (shuffleGo tgt budget cur').prependOps ops

/-- `Shuffler::shuffle`: at most 1000 state-changing steps. -/
def shuffle (cur tgt : List StackSlot) : ShuffleResult :=
  shuffleGo tgt 1000 cur

/-- The push loop after the shuffle in `createStackLayout`: while the current
stack is shorter than the target, push or dup the target slot at the current
size.  The counter is the number of missing slots. -/
def pushTailGo (tgt : List StackSlot) : Nat → List StackSlot → List StackSlot × List Op
  | 0, cur => (cur, [])
  | k + 1, cur =>
      ((pushTailGo tgt k (cur ++ [tgt.getD cur.length StackSlot.junk])).1,
        Op.pushOrDup (tgt.getD cur.length StackSlot.junk) ::
          (pushTailGo tgt k (cur ++ [tgt.getD cur.length StackSlot.junk])).2)

/-- The final zip loop of `createStackLayout`: junk target positions overwrite
the current slot with junk, every other position asserts slot equality
(`none` models the assertion failure). -/
def normalizeZip : List StackSlot → List StackSlot → Option (List StackSlot)
  | [], _ => some []
  | cs, [] => some cs
  | c :: cs, t :: ts =>
      if t = StackSlot.junk then (normalizeZip cs ts).map (fun r => StackSlot.junk :: r)
      else if c = t then (normalizeZip cs ts).map (fun r => c :: r)
      else none

/-- Error outcomes of `createStackLayout`: the 1000-iteration assertion, any
other `yulAssert`, or exhausted worklist fuel of the embedding. -/
inductive CSLError
  | nonTermination
  | invariantViolation
  | outOfFuel
  deriving DecidableEq, Repr

/-- `createStackLayout`: run the shuffler, push the remaining target suffix,
assert equal sizes, then normalize junk positions and assert equality
elsewhere.  Returns the final current stack and the trace of hook
invocations. -/
def createStackLayout (cur tgt : List StackSlot) :
    Except CSLError (List StackSlot × List Op) :=
  match shuffle cur tgt with
  | .ok c1 ops1 =>
      if (pushTailGo tgt (tgt.length - c1.length) c1).1.length = tgt.length then
        match normalizeZip (pushTailGo tgt (tgt.length - c1.length) c1).1 tgt with
        | some c3 => .ok (c3, ops1 ++ (pushTailGo tgt (tgt.length - c1.length) c1).2)
        | none => .error .invariantViolation
      else .error .invariantViolation
  | .nonTermination _ _ => .error .nonTermination
  | .fail _ _ => .error .invariantViolation
  | .fuelOut _ _ => .error .outOfFuel

/-- Number of target positions that count as an occurrence of `x` in the
multiplicity bookkeeping, rendered from the specification: a position whose
target slot is junk and whose offset is within the current stack counts as an
occurrence of the slot currently at that offset, every other position counts
as an occurrence of its target slot.  The first argument after the current
stack is the offset of the first listed target position. -/
def targetOccurrences (cur : List StackSlot) : Nat → List StackSlot → StackSlot → Nat
  | _, [], _ => 0
  | offset, slot :: rest, x =>
      (if (if slot = StackSlot.junk ∧ offset < cur.length
           then cur.getD offset StackSlot.junk = x
           else slot = x) then 1 else 0)
      + targetOccurrences cur (offset + 1) rest x

/-- Predicate on a (current slot, target slot) pair: the pair's target
position counts as an occurrence of `d` in the multiplicity bookkeeping. -/
def junkAwareHit (d : StackSlot) (p : StackSlot × StackSlot) : Bool :=
  if p.2 = StackSlot.junk then decide (p.1 = d) else decide (p.2 = d)

/-- Predicate on a (current slot, target slot) pair: the current slot is `d`. -/
def firstHit (d : StackSlot) (p : StackSlot × StackSlot) : Bool :=
  decide (p.1 = d)

/-! Helper lemmas. -/

lemma getD_eq (l : List StackSlot) (i : Nat) (h : i < l.length) :
    l.getD i StackSlot.junk = l[i] :=
  List.getD_eq_getElem l _ h

lemma multAddCurrent_apply (l : List StackSlot) (f : StackSlot → Int) (x : StackSlot) :
    multAddCurrent l f x = f x - l.count x := by
  induction l generalizing f with
  | nil => simp [multAddCurrent]
  | cons a l ih =>
      have : multAddCurrent (a :: l) f = multAddCurrent l (bump f a (-1)) := rfl
      rw [this, ih]
      simp only [bump, List.count_cons]
      by_cases h : x = a
      · subst h
        simp only [if_pos rfl, beq_self_eq_true, if_pos]
        push_cast
        ring
      · have hba : (a == x) = false := by
          simp [beq_eq_false_iff_ne]
          exact fun he => h he.symm
        simp [h, hba]

lemma multAddTarget_apply (cur : List StackSlot) (ts : List StackSlot) (t0 : Nat)
    (f : StackSlot → Int) (x : StackSlot) :
    multAddTarget cur t0 ts f x = f x + targetOccurrences cur t0 ts x := by
  induction ts generalizing t0 f with
  | nil => simp [multAddTarget, targetOccurrences]
  | cons s rest ih =>
      have hunf : multAddTarget cur t0 (s :: rest) f =
          multAddTarget cur (t0 + 1) rest
            (if s = StackSlot.junk ∧ t0 < cur.length
             then bump f (cur.getD t0 StackSlot.junk) 1
             else bump f s 1) := rfl
      rw [hunf, ih]
      show _ = f x + targetOccurrences cur t0 (s :: rest) x
      have hocc : targetOccurrences cur t0 (s :: rest) x =
          (if (if s = StackSlot.junk ∧ t0 < cur.length
               then cur.getD t0 StackSlot.junk = x
               else s = x) then 1 else 0)
          + targetOccurrences cur (t0 + 1) rest x := rfl
      rw [hocc]
      by_cases hc : s = StackSlot.junk ∧ t0 < cur.length
      · simp only [if_pos hc]
        simp only [bump]
        by_cases he : x = cur.getD t0 StackSlot.junk
        · rw [if_pos he, if_pos he.symm]
          push_cast
          ring
        · rw [if_neg he, if_neg (fun h2 => he h2.symm)]
          push_cast
          ring
      · simp only [if_neg hc]
        simp only [bump]
        by_cases he : x = s
        · rw [if_pos he, if_pos he.symm]
          push_cast
          ring
        · rw [if_neg he, if_neg (fun h2 => he h2.symm)]
          push_cast
          ring

lemma multTable_spec (cur tgt : List StackSlot) (x : StackSlot) :
    multTable cur tgt x = (targetOccurrences cur 0 tgt x : Int) - (cur.count x : Int) := by
  unfold multTable
  rw [multAddTarget_apply, multAddCurrent_apply]
  ring

lemma hit_pigeonhole (d : StackSlot) :
    ∀ l : List (StackSlot × StackSlot),
      l.countP (firstHit d) + 1 ≤ l.countP (junkAwareHit d) →
      ∃ p ∈ l, p.2 = d ∧ p.2 ≠ StackSlot.junk ∧ p.1 ≠ d := by
  intro l
  induction l with
  | nil => intro h; simp at h
  | cons p l ih =>
      intro h
      rw [List.countP_cons, List.countP_cons] at h
      by_cases hj : p.2 = StackSlot.junk
      · have heq : junkAwareHit d p = firstHit d p := by
          simp [junkAwareHit, firstHit, hj]
        rw [heq] at h
        obtain ⟨q, hq, hprop⟩ := ih (by omega)
        exact ⟨q, List.mem_cons_of_mem p hq, hprop⟩
      · by_cases ht : p.2 = d
        · by_cases hf : p.1 = d
          · have hdj : ¬(d = StackSlot.junk) := fun hh => hj (ht.trans hh)
            have h1 : junkAwareHit d p = true := by
              simp [junkAwareHit, ht, hdj]
            have h2 : firstHit d p = true := by simp [firstHit, hf]
            rw [h1, h2] at h
            simp only [if_pos rfl] at h
            obtain ⟨q, hq, hprop⟩ := ih (by omega)
            exact ⟨q, List.mem_cons_of_mem p hq, hprop⟩
          · exact ⟨p, List.mem_cons_self p l, ht, hj, hf⟩
        · have h1 : junkAwareHit d p = false := by simp [junkAwareHit, hj, ht]
          rw [h1] at h
          simp only [Bool.false_eq_true, if_false] at h
          have hfh : (if firstHit d p = true then 1 else 0) ≤ 1 := by
            by_cases hb : firstHit d p = true <;> simp [hb]
          obtain ⟨q, hq, hprop⟩ := ih (by omega)
          exact ⟨q, List.mem_cons_of_mem p hq, hprop⟩

lemma targetOccurrences_eq_zip (cur : List StackSlot) (d : StackSlot) :
    ∀ (ts : List StackSlot) (t0 : Nat), t0 + ts.length ≤ cur.length →
      targetOccurrences cur t0 ts d = ((cur.drop t0).zip ts).countP (junkAwareHit d) := by
  intro ts
  induction ts with
  | nil => intro t0 h; simp [targetOccurrences]
  | cons s rest ih =>
      intro t0 hb
      have ht0 : t0 < cur.length := by
        simp only [List.length_cons] at hb
        omega
      have hdrop : cur.drop t0 = cur[t0] :: cur.drop (t0 + 1) :=
        List.drop_eq_getElem_cons ht0
      rw [hdrop, List.zip_cons_cons, List.countP_cons]
      have hocc : targetOccurrences cur t0 (s :: rest) d =
          (if (if s = StackSlot.junk ∧ t0 < cur.length
               then cur.getD t0 StackSlot.junk = d
               else s = d) then 1 else 0)
          + targetOccurrences cur (t0 + 1) rest d := rfl
      rw [hocc, ih (t0 + 1) (by simp only [List.length_cons] at hb; omega)]
      have hhead : (if (if s = StackSlot.junk ∧ t0 < cur.length
               then cur.getD t0 StackSlot.junk = d
               else s = d) then 1 else 0) =
          (if junkAwareHit d (cur[t0], s) then 1 else 0) := by
        simp only [junkAwareHit]
        by_cases hs : s = StackSlot.junk
        · simp only [hs, true_and, if_pos ht0, getD_eq cur t0 ht0]
          simp
        · have : ¬(s = StackSlot.junk ∧ t0 < cur.length) := fun hc => hs hc.1
          simp only [if_neg this, if_neg hs]
          simp
      omega

lemma zip_countP_firstHit (d : StackSlot) :
    ∀ (ts cs : List StackSlot),
      (cs.zip ts).countP (firstHit d) = (cs.take ts.length).count d := by
  intro ts
  induction ts with
  | nil => intro cs; simp
  | cons t ts ih =>
      intro cs
      cases cs with
      | nil => simp
      | cons cHead cs =>
          rw [List.zip_cons_cons, List.countP_cons]
          simp only [List.length_cons, List.take_succ_cons, List.count_cons]
          rw [ih cs]
          by_cases hc : cHead = d
          · simp [firstHit, hc]
          · simp [firstHit, hc, Ne.symm hc]

lemma top_surplus_swapDown (cur tgt : List StackSlot)
    (hmn : tgt.length < cur.length)
    (hmult : 0 ≤ multTable cur tgt (cur.getD (cur.length - 1) StackSlot.junk)) :
    ∃ off, off < tgt.length ∧
      (!isCompatible cur tgt off off &&
       (!sourceIsSame cur off (cur.length - 1) &&
        isCompatible cur tgt (cur.length - 1) off)) = true := by
  have heq := multTable_spec cur tgt (cur.getD (cur.length - 1) StackSlot.junk)
  set d := cur.getD (cur.length - 1) StackSlot.junk with hd
  have hcnt : cur.count d ≤ targetOccurrences cur 0 tgt d := by omega
  have hA : targetOccurrences cur 0 tgt d = (cur.zip tgt).countP (junkAwareHit d) := by
    have h0 := targetOccurrences_eq_zip cur d tgt 0 (by omega)
    simpa using h0
  have hB : (cur.zip tgt).countP (firstHit d) = (cur.take tgt.length).count d :=
    zip_countP_firstHit d tgt cur
  have hsplit : cur.count d =
      (cur.take tgt.length).count d + (cur.drop tgt.length).count d := by
    conv_lhs => rw [← List.take_append_drop tgt.length cur]
    rw [List.count_append]
  have htoplt : cur.length - 1 < cur.length := by omega
  have hmem : d ∈ cur.drop tgt.length := by
    have hlt : cur.length - 1 - tgt.length < (cur.drop tgt.length).length := by
      simp only [List.length_drop]
      omega
    have hg : (cur.drop tgt.length)[cur.length - 1 - tgt.length] =
        cur[cur.length - 1] := by
      rw [List.getElem_drop]
      congr 1
      omega
    have hd2 : d = cur[cur.length - 1] := getD_eq cur _ htoplt
    rw [hd2, ← hg]
    exact List.getElem_mem hlt
  have hdropc : 0 < (cur.drop tgt.length).count d := List.count_pos_iff.mpr hmem
  have hph : (cur.zip tgt).countP (firstHit d) + 1 ≤
      (cur.zip tgt).countP (junkAwareHit d) := by omega
  obtain ⟨p, hp, ht, hj, hf⟩ := hit_pigeonhole d (cur.zip tgt) hph
  obtain ⟨i, hi, hpeq⟩ := List.mem_iff_getElem.mp hp
  have hilen : i < min cur.length tgt.length := by
    simpa [List.length_zip] using hi
  have him : i < tgt.length := lt_of_lt_of_le hilen (Nat.min_le_right _ _)
  have hin : i < cur.length := lt_of_lt_of_le hilen (Nat.min_le_left _ _)
  have hz : p = (cur[i], tgt[i]) := by
    rw [← hpeq]
    exact List.getElem_zip
  rw [hz] at ht hj hf
  simp only at ht hj hf
  refine ⟨i, him, ?_⟩
  have hdj : d ≠ StackSlot.junk := fun hh => hj (ht.trans hh)
  have hc1 : isCompatible cur tgt i i = false := by
    have hgd1 : tgt.getD i StackSlot.junk = tgt[i] := getD_eq tgt i him
    have hgd2 : cur.getD i StackSlot.junk = cur[i] := getD_eq cur i hin
    simp only [isCompatible, hgd1, hgd2, ht]
    simp [hj, hf, hdj]
  have hc2 : sourceIsSame cur i (cur.length - 1) = false := by
    have hgd2 : cur.getD i StackSlot.junk = cur[i] := getD_eq cur i hin
    simp only [sourceIsSame, hgd2, ← hd]
    simp [hf]
  have hc3 : isCompatible cur tgt (cur.length - 1) i = true := by
    have hgd1 : tgt.getD i StackSlot.junk = tgt[i] := getD_eq tgt i him
    simp only [isCompatible, hgd1, ← hd, ht]
    simp [htoplt, him]
  rw [hc1, hc2, hc3]
  rfl


lemma swapDownOffset_ne_top (cur tgt : List StackSlot) (off : Nat)
    (h : swapDownOffset cur tgt = some off) :
    off < cur.length ∧ off ≠ cur.length - 1 := by
  unfold swapDownOffset at h
  split at h
  · have hmem := List.mem_of_find?_eq_some h
    have hp := List.find?_some h
    rw [List.mem_range] at hmem
    refine ⟨lt_of_lt_of_le hmem (Nat.min_le_left _ _), ?_⟩
    intro heq
    simp only [Bool.and_eq_true, Bool.not_eq_true'] at hp
    have hsame : sourceIsSame cur off (cur.length - 1) = false := hp.1.2
    rw [heq] at hsame
    simp [sourceIsSame] at hsame
  · exact Option.noConfusion h

lemma swapUpOffset_ne_top (cur tgt : List StackSlot) (s : Nat)
    (h : swapUpOffset cur tgt = some s) :
    s < cur.length ∧ s ≠ cur.length - 1 := by
  unfold swapUpOffset at h
  split at h
  · rename_i hg
    have hmem := List.mem_of_find?_eq_some h
    have hp := List.find?_some h
    rw [List.mem_range] at hmem
    refine ⟨hmem, ?_⟩
    intro heq
    rw [Bool.not_eq_true'] at hg
    simp only [Bool.and_eq_true] at hp
    rw [heq, hg] at hp
    exact Bool.noConfusion hp.2
  · exact Option.noConfusion h

lemma finalSwapA_ne_top (cur tgt : List StackSlot) (off : Nat)
    (hc : isCompatible cur tgt (cur.length - 1) (cur.length - 1) = true)
    (h : finalSwapA cur tgt = some off) :
    off < cur.length ∧ off ≠ cur.length - 1 := by
  have hmem := List.mem_of_find?_eq_some h
  have hp := List.find?_some h
  rw [List.mem_range] at hmem
  refine ⟨hmem, ?_⟩
  intro heq
  simp only [Bool.and_eq_true, Bool.not_eq_true'] at hp
  rw [heq, hc] at hp
  exact Bool.noConfusion hp.1

lemma finalSwapB_ne_top (cur tgt : List StackSlot) (off : Nat)
    (h : finalSwapB cur tgt = some off) :
    off < cur.length ∧ off ≠ cur.length - 1 := by
  have hmem := List.mem_of_find?_eq_some h
  have hp := List.find?_some h
  rw [List.mem_range] at hmem
  refine ⟨hmem, ?_⟩
  intro heq
  simp only [Bool.and_eq_true, Bool.not_eq_true'] at hp
  have hsame : sourceIsSame cur off (cur.length - 1) = false := hp.2
  rw [heq] at hsame
  simp [sourceIsSame] at hsame

lemma stepBringUp_ops (cur tgt : List StackSlot) (t0 : Nat) (ops : List Op)
    (c' : List StackSlot) (h : stepBringUp cur tgt t0 = StepResult.step ops c') :
    ∃ s, ops = [Op.pushOrDup s] := by
  unfold stepBringUp at h
  split at h
  · injection h with h1 _
    exact ⟨_, h1.symm⟩
  · exact StepResult.noConfusion h
  · exact StepResult.noConfusion h

lemma shuffleStep_step_shape (cur tgt : List StackSlot) (ops : List Op)
    (c' : List StackSlot) (h : shuffleStep cur tgt = StepResult.step ops c') :
    ops = [Op.pop] ∨ (∃ s, ops = [Op.pushOrDup s]) ∨
      (∃ off, off < cur.length ∧ off ≠ cur.length - 1 ∧
        ops = [Op.swap (cur.length - off - 1)]) := by
  unfold shuffleStep at h
  split at h
  · exact StepResult.noConfusion h
  split at h
  · injection h with h1 _
    exact Or.inl h1.symm
  split at h
  · exact StepResult.noConfusion h
  split at h
  · rename_i off heq
    injection h with h1 _
    exact Or.inr (Or.inr ⟨off, (swapDownOffset_ne_top cur tgt off heq).1,
      (swapDownOffset_ne_top cur tgt off heq).2, h1.symm⟩)
  split at h
  · rename_i off heq
    exact Or.inr (Or.inl (stepBringUp_ops cur tgt off ops c' h))
  split at h
  · exact StepResult.noConfusion h
  split at h
  · exact StepResult.noConfusion h
  split at h
  · rename_i s heq
    injection h with h1 _
    exact Or.inr (Or.inr ⟨s, (swapUpOffset_ne_top cur tgt s heq).1,
      (swapUpOffset_ne_top cur tgt s heq).2, h1.symm⟩)
  split at h
  · exact Or.inr (Or.inl (stepBringUp_ops cur tgt cur.length ops c' h))
  split at h
  · exact StepResult.noConfusion h
  split at h
  · exact StepResult.noConfusion h
  split at h
  · exact StepResult.noConfusion h
  rename_i hcomp
  rw [Bool.not_eq_true, Bool.not_eq_false'] at hcomp
  split at h
  · rename_i off heq
    injection h with h1 _
    exact Or.inr (Or.inr ⟨off, (finalSwapA_ne_top cur tgt off hcomp heq).1,
      (finalSwapA_ne_top cur tgt off hcomp heq).2, h1.symm⟩)
  split at h
  · rename_i off heq
    injection h with h1 _
    exact Or.inr (Or.inr ⟨off, (finalSwapB_ne_top cur tgt off heq).1,
      (finalSwapB_ne_top cur tgt off heq).2, h1.symm⟩)
  · exact StepResult.noConfusion h

lemma shuffleStep_step_one (cur tgt : List StackSlot) (ops : List Op)
    (c' : List StackSlot) (h : shuffleStep cur tgt = StepResult.step ops c') :
    ops.length = 1 := by
  rcases shuffleStep_step_shape cur tgt ops c' h with h1 | ⟨s, h1⟩ | ⟨off, _, _, h1⟩ <;>
    subst h1 <;> rfl

lemma prependOps_ops (r : ShuffleResult) (o : List Op) :
    (r.prependOps o).ops = o ++ r.ops := by
  cases r <;> rfl

lemma shuffleGo_swap_ge_one (tgt : List StackSlot) :
    ∀ (b : Nat) (cur : List StackSlot) (d : Nat),
      Op.swap d ∈ (shuffleGo tgt b cur).ops → 1 ≤ d := by
  intro b
  induction b with
  | zero =>
      intro cur d hm
      simp [shuffleGo, ShuffleResult.ops] at hm
  | succ b ih =>
      intro cur d hm
      rw [shuffleGo] at hm
      cases hstep : shuffleStep cur tgt with
      | done => rw [hstep] at hm; simp [ShuffleResult.ops] at hm
      | fail => rw [hstep] at hm; simp [ShuffleResult.ops] at hm
      | outOfFuel => rw [hstep] at hm; simp [ShuffleResult.ops] at hm
      | step ops1 cur' =>
          rw [hstep, prependOps_ops] at hm
          rcases List.mem_append.mp hm with h1 | h2
          · rcases shuffleStep_step_shape cur tgt ops1 cur' hstep with
              hsh | ⟨s, hsh⟩ | ⟨off, hlt, hne, hsh⟩ <;> subst hsh
            · simp at h1
            · simp at h1
            · have : d = cur.length - off - 1 := by simpa using h1
              omega
          · exact ih cur' d h2

lemma pushTailGo_no_swap (tgt : List StackSlot) :
    ∀ (k : Nat) (cur : List StackSlot) (d : Nat),
      Op.swap d ∉ (pushTailGo tgt k cur).2 := by
  intro k
  induction k with
  | zero => intro cur d; simp [pushTailGo]
  | succ k ih =>
      intro cur d hm
      rw [pushTailGo] at hm
      rcases List.mem_cons.mp hm with h1 | h2
      · exact Op.noConfusion h1
      · exact ih _ d h2

lemma shuffleGo_length (tgt : List StackSlot) :
    ∀ (b : Nat) (cur : List StackSlot),
      ((shuffleGo tgt b cur).ops.length ≤ b) ∧
      (∀ c o, shuffleGo tgt b cur = ShuffleResult.nonTermination c o → o.length = b) ∧
      (∀ c o, shuffleGo tgt b cur = ShuffleResult.ok c o → o.length < b) ∧
      (∀ c o, shuffleGo tgt b cur = ShuffleResult.fail c o → o.length < b) ∧
      (∀ c o, shuffleGo tgt b cur = ShuffleResult.fuelOut c o → o.length < b) := by
  intro b
  induction b with
  | zero =>
      intro cur
      refine ⟨by simp [shuffleGo, ShuffleResult.ops], ?_, ?_, ?_, ?_⟩
      · intro c o h
        rw [shuffleGo] at h
        injection h with _ h2
        rw [← h2]
        rfl
      · intro c o h; exact ShuffleResult.noConfusion (h.symm.trans (by rw [shuffleGo]))
      · intro c o h; exact ShuffleResult.noConfusion (h.symm.trans (by rw [shuffleGo]))
      · intro c o h; exact ShuffleResult.noConfusion (h.symm.trans (by rw [shuffleGo]))
  | succ b ih =>
      intro cur
      cases hstep : shuffleStep cur tgt with
      | done =>
          have hval : shuffleGo tgt (b + 1) cur = ShuffleResult.ok cur [] := by
            rw [shuffleGo, hstep]
          refine ⟨by rw [hval]; simp [ShuffleResult.ops], ?_, ?_, ?_, ?_⟩ <;>
            intro c o h <;> rw [hval] at h
          · exact ShuffleResult.noConfusion h
          · injection h with _ h2; rw [← h2]; simp
          · exact ShuffleResult.noConfusion h
          · exact ShuffleResult.noConfusion h
      | fail =>
          have hval : shuffleGo tgt (b + 1) cur = ShuffleResult.fail cur [] := by
            rw [shuffleGo, hstep]
          refine ⟨by rw [hval]; simp [ShuffleResult.ops], ?_, ?_, ?_, ?_⟩ <;>
            intro c o h <;> rw [hval] at h
          · exact ShuffleResult.noConfusion h
          · exact ShuffleResult.noConfusion h
          · injection h with _ h2; rw [← h2]; simp
          · exact ShuffleResult.noConfusion h
      | outOfFuel =>
          have hval : shuffleGo tgt (b + 1) cur = ShuffleResult.fuelOut cur [] := by
            rw [shuffleGo, hstep]
          refine ⟨by rw [hval]; simp [ShuffleResult.ops], ?_, ?_, ?_, ?_⟩ <;>
            intro c o h <;> rw [hval] at h
          · exact ShuffleResult.noConfusion h
          · exact ShuffleResult.noConfusion h
          · exact ShuffleResult.noConfusion h
          · injection h with _ h2; rw [← h2]; simp
      | step ops1 cur' =>
          have hone : ops1.length = 1 := shuffleStep_step_one cur tgt ops1 cur' hstep
          have hval : shuffleGo tgt (b + 1) cur =
              (shuffleGo tgt b cur').prependOps ops1 := by
            rw [shuffleGo, hstep]
          obtain ⟨ihlen, ihnt, ihok, ihfail, ihfuel⟩ := ih cur'
          cases hinner : shuffleGo tgt b cur' with
          | ok ci oi =>
              have hv2 : shuffleGo tgt (b + 1) cur = ShuffleResult.ok ci (ops1 ++ oi) := by
                rw [hval, hinner]; rfl
              have hlt : oi.length < b := ihok ci oi hinner
              refine ⟨?_, ?_, ?_, ?_, ?_⟩
              · rw [hv2]; simp [ShuffleResult.ops, hone]; omega
              all_goals intro c o h <;> rw [hv2] at h
              · exact ShuffleResult.noConfusion h
              · injection h with _ h2; rw [← h2]; simp [hone]; omega
              · exact ShuffleResult.noConfusion h
              · exact ShuffleResult.noConfusion h
          | nonTermination ci oi =>
              have hv2 : shuffleGo tgt (b + 1) cur =
                  ShuffleResult.nonTermination ci (ops1 ++ oi) := by
                rw [hval, hinner]; rfl
              have hlen : oi.length = b := ihnt ci oi hinner
              refine ⟨?_, ?_, ?_, ?_, ?_⟩
              · rw [hv2]; simp [ShuffleResult.ops, hone]; omega
              all_goals intro c o h <;> rw [hv2] at h
              · injection h with _ h2; rw [← h2]; simp [hone]; omega
              · exact ShuffleResult.noConfusion h
              · exact ShuffleResult.noConfusion h
              · exact ShuffleResult.noConfusion h
          | fail ci oi =>
              have hv2 : shuffleGo tgt (b + 1) cur = ShuffleResult.fail ci (ops1 ++ oi) := by
                rw [hval, hinner]; rfl
              have hlt : oi.length < b := ihfail ci oi hinner
              refine ⟨?_, ?_, ?_, ?_, ?_⟩
              · rw [hv2]; simp [ShuffleResult.ops, hone]; omega
              all_goals intro c o h <;> rw [hv2] at h
              · exact ShuffleResult.noConfusion h
              · exact ShuffleResult.noConfusion h
              · injection h with _ h2; rw [← h2]; simp [hone]; omega
              · exact ShuffleResult.noConfusion h
          | fuelOut ci oi =>
              have hv2 : shuffleGo tgt (b + 1) cur =
                  ShuffleResult.fuelOut ci (ops1 ++ oi) := by
                rw [hval, hinner]; rfl
              have hlt : oi.length < b := ihfuel ci oi hinner
              refine ⟨?_, ?_, ?_, ?_, ?_⟩
              · rw [hv2]; simp [ShuffleResult.ops, hone]; omega
              all_goals intro c o h <;> rw [hv2] at h
              · exact ShuffleResult.noConfusion h
              · exact ShuffleResult.noConfusion h
              · exact ShuffleResult.noConfusion h
              · injection h with _ h2; rw [← h2]; simp [hone]; omega

lemma bringUpGo_push_mem (cur tgt : List StackSlot) :
    ∀ (fuel : Nat) (tv vis : List Nat) (t : Nat) (dq : List Nat),
      bringUpGo cur tgt fuel tv vis = BUTResult.push t dq → t ∈ dq := by
  intro fuel
  induction fuel with
  | zero =>
      intro tv vis t dq h
      cases tv with
      | nil => rw [bringUpGo] at h; exact BUTResult.noConfusion h
      | cons a rest => rw [bringUpGo] at h; exact BUTResult.noConfusion h
  | succ fuel ih =>
      intro tv vis t dq h
      cases tv with
      | nil => rw [bringUpGo] at h; exact BUTResult.noConfusion h
      | cons offset rest =>
          simp only [bringUpGo] at h
          split at h
          · injection h with h1 h2
            rw [← h2, ← h1]
            exact List.mem_singleton_self offset
          · split at h
            · rename_i t' dq' heq
              injection h with h1 h2
              rw [← h2, ← h1]
              exact List.mem_cons_of_mem offset (ih _ _ _ _ heq)
            · exact BUTResult.noConfusion h
            · exact BUTResult.noConfusion h

lemma bringUpGo_dequeued_lt (cur tgt : List StackSlot) :
    ∀ (fuel : Nat) (tv vis : List Nat),
      (∀ x ∈ tv, x < tgt.length) →
      ∀ x ∈ (bringUpGo cur tgt fuel tv vis).dequeued, x < tgt.length := by
  have hfilter : ∀ (p : Nat → Bool) (y : Nat),
      y ∈ (List.range (min cur.length tgt.length)).filter p → y < tgt.length := by
    intro p y hy
    have h1 := (List.mem_filter.mp hy).1
    rw [List.mem_range] at h1
    exact lt_of_lt_of_le h1 (Nat.min_le_right _ _)
  intro fuel
  induction fuel with
  | zero =>
      intro tv vis hinv x hx
      cases tv with
      | nil =>
          rw [bringUpGo] at hx
          exact absurd hx (List.not_mem_nil x)
      | cons a rest =>
          rw [bringUpGo] at hx
          exact absurd hx (List.not_mem_nil x)
  | succ fuel ih =>
      intro tv vis hinv x hx
      cases tv with
      | nil =>
          rw [bringUpGo] at hx
          exact absurd hx (List.not_mem_nil x)
      | cons offset rest =>
          have hoff : offset < tgt.length := hinv offset (List.mem_cons_self offset rest)
          simp only [bringUpGo] at hx
          split at hx
          · simp only [BUTResult.dequeued] at hx
            rcases List.mem_singleton.mp hx with rfl
            exact hoff
          · have hinv' : ∀ y ∈ rest, y < tgt.length :=
              fun y hy => hinv y (List.mem_cons_of_mem offset hy)
            split at hx
            · rename_i t' dq' heq
              simp only [BUTResult.dequeued] at hx
              rcases List.mem_cons.mp hx with h1 | h2
              · rw [h1]; exact hoff
              · refine ih _ _ (fun y hy => ?_) x (by rw [heq]; exact h2)
                rcases List.mem_append.mp hy with hy1 | hy2
                · exact hinv' y hy1
                · exact hfilter _ y hy2
            · rename_i heq
              simp only [BUTResult.dequeued] at hx
              rcases List.mem_cons.mp hx with h1 | h2
              · rw [h1]; exact hoff
              · refine ih _ _ (fun y hy => ?_) x (by rw [heq]; exact h2)
                rcases List.mem_append.mp hy with hy1 | hy2
                · exact hinv' y hy1
                · exact hfilter _ y hy2
            · rename_i heq
              simp only [BUTResult.dequeued] at hx
              rcases List.mem_cons.mp hx with h1 | h2
              · rw [h1]; exact hoff
              · refine ih _ _ (fun y hy => ?_) x (by rw [heq]; exact h2)
                rcases List.mem_append.mp hy with hy1 | hy2
                · exact hinv' y hy1
                · exact hfilter _ y hy2

/-! Claim theorems. -/

lemma csl_ok_ops (cur tgt c : List StackSlot) (ops : List Op)
    (h : createStackLayout cur tgt = Except.ok (c, ops)) :
    ∃ c1 ops1, shuffle cur tgt = ShuffleResult.ok c1 ops1 ∧
      ops = ops1 ++ (pushTailGo tgt (tgt.length - c1.length) c1).2 ∧
      normalizeZip (pushTailGo tgt (tgt.length - c1.length) c1).1 tgt = some c ∧
      (pushTailGo tgt (tgt.length - c1.length) c1).1.length = tgt.length := by
  unfold createStackLayout at h
  split at h
  · rename_i c1 ops1 hsh
    split at h
    · rename_i hlen
      split at h
      · rename_i c3 hnz
        injection h with h1
        have h2 := congrArg Prod.fst h1
        have h3 := congrArg Prod.snd h1
        simp only at h2 h3
        exact ⟨c1, ops1, hsh, h3.symm, by rw [hnz, h2], hlen⟩
      · exact Except.noConfusion h
    · exact Except.noConfusion h
  · exact Except.noConfusion h
  · exact Except.noConfusion h
  · exact Except.noConfusion h

lemma normalizeZip_eq_target :
    ∀ (cs ts r : List StackSlot), cs.length = ts.length →
      normalizeZip cs ts = some r → r = ts := by
  intro cs
  induction cs with
  | nil =>
      intro ts r hlen h
      cases ts with
      | nil => injection h with h1; exact h1.symm
      | cons t ts => exact absurd hlen (by simp)
  | cons cHead cs ih =>
      intro ts r hlen h
      cases ts with
      | nil => exact absurd hlen (by simp)
      | cons t ts =>
          unfold normalizeZip at h
          split at h
          · rename_i ht
            cases hnz : normalizeZip cs ts with
            | none => rw [hnz] at h; exact Option.noConfusion h
            | some r' =>
                rw [hnz] at h
                injection h with h1
                have hr' := ih ts r' (by simpa using hlen) hnz
                rw [← h1, hr', ht]
          · split at h
            · rename_i hne hce
              cases hnz : normalizeZip cs ts with
              | none => rw [hnz] at h; exact Option.noConfusion h
              | some r' =>
                  rw [hnz] at h
                  injection h with h1
                  have hr' := ih ts r' (by simpa using hlen) hnz
                  rw [← h1, hr', hce]
            · exact Option.noConfusion h

lemma normalizeZip_refl : ∀ ts : List StackSlot, normalizeZip ts ts = some ts := by
  intro ts
  induction ts with
  | nil => rfl
  | cons t ts ih =>
      unfold normalizeZip
      by_cases ht : t = StackSlot.junk
      · rw [if_pos ht, ih]
        simp [ht]
      · rw [if_neg ht, if_pos rfl, ih]
        rfl

lemma csl_ok_eq_target (cur tgt c : List StackSlot) (ops : List Op)
    (h : createStackLayout cur tgt = Except.ok (c, ops)) : c = tgt := by
  obtain ⟨c1, ops1, _, _, hnz, hlen⟩ := csl_ok_ops cur tgt c ops h
  exact normalizeZip_eq_target _ tgt c hlen hnz

/-- C4: on construction of the `ShuffleOperations` adapter, the multiplicity
table value of every slot `x` equals the number of target positions counting
as an occurrence of `x` (a junk target position with an offset inside the
current stack counts for the slot currently at that offset, every other
position counts for its target slot) minus the number of occurrences of `x`
in the current stack. -/
theorem multiplicity_table_spec (cur tgt : List StackSlot) (x : StackSlot) :
    multTable cur tgt x = (targetOccurrences cur 0 tgt x : Int) - (cur.count x : Int) :=
  multTable_spec cur tgt x

/-- C5: `isCompatible s t` holds iff both offsets are in range and the target
slot at `t` is junk or equals the current slot at `s`; in particular it is
false whenever either offset is out of range. -/
theorem isCompatible_spec (cur tgt : List StackSlot) (s t : Nat) :
    isCompatible cur tgt s t = true ↔
      (s < cur.length ∧ t < tgt.length ∧
        (tgt.getD t StackSlot.junk = StackSlot.junk ∨
         cur.getD s StackSlot.junk = tgt.getD t StackSlot.junk)) := by
  simp [isCompatible, and_assoc]

/-- C10: whenever `shuffleStep` proceeds past the stop check (its result is
not `done`), the current stack is non-empty: an empty current stack satisfies
the stop predicate vacuously, so `sourceSize - 1` never underflows. -/
theorem shuffleStep_nonempty_source (cur tgt : List StackSlot)
    (h : shuffleStep cur tgt ≠ StepResult.done) : 1 ≤ cur.length := by
  by_contra hlen
  apply h
  have hnil : cur = [] := List.length_eq_zero.mp (by omega)
  subst hnil
  have hstop : stopHolds [] tgt = true := by simp [stopHolds]
  unfold shuffleStep
  simp [hstop]

/-- C6: in every `shuffleStep` where the stop predicate fails, if the top slot
has negative multiplicity and it is not the case that the target is at least
as large as the source with an arbitrary slot at the top position, the step
emits exactly one `pop`, drops the top slot, and performs nothing else. -/
theorem shuffleStep_pop_clause (cur tgt : List StackSlot)
    (hstop : stopHolds cur tgt = false)
    (hmult : sourceMultiplicity cur tgt (cur.length - 1) < 0)
    (harb : ¬(cur.length ≤ tgt.length ∧ targetIsArbitrary tgt (cur.length - 1) = true)) :
    shuffleStep cur tgt = StepResult.step [Op.pop] cur.dropLast := by
  have hpop : popGuard cur tgt = true := by
    unfold popGuard
    have h2 : (decide (cur.length ≤ tgt.length) &&
        targetIsArbitrary tgt (cur.length - 1)) = false := by
      by_cases hle : cur.length ≤ tgt.length
      · by_cases ha : targetIsArbitrary tgt (cur.length - 1) = true
        · exact absurd ⟨hle, ha⟩ harb
        · simp [Bool.eq_false_iff.mpr ha]
      · simp [hle]
    simp [hmult, h2]
  unfold shuffleStep
  simp [hstop, hpop]

/-- C9: when `shuffleStep` reaches the fill clause (stop predicate false, pop
clause not taken, swap-down scan empty), the offset found by the fill scan is
strictly below the target size even though its guard syntactically permits
equality, and every offset the `bringUpTargetSlot` worklist walk takes from a
worklist of in-range offsets — in particular the offset it pushes — is
strictly below the target size, so the target-stack lookups of
`targetMultiplicity` and `pushOrDupTarget` stay in range. -/
theorem bringUpTargetSlot_offsets_in_range (cur tgt : List StackSlot)
    (hstop : stopHolds cur tgt = false)
    (hpop : popGuard cur tgt = false)
    (hsd : swapDownOffset cur tgt = none) :
    (∀ off, fillOffset cur tgt = some off → off < tgt.length) ∧
    (∀ fuel tv vis, (∀ x ∈ tv, x < tgt.length) →
      (∀ x ∈ (bringUpGo cur tgt fuel tv vis).dequeued, x < tgt.length) ∧
      (∀ t dq, bringUpGo cur tgt fuel tv vis = BUTResult.push t dq →
        t < tgt.length)) := by
  constructor
  · intro off hfill
    have hoffn : off < cur.length := by
      have hm := List.mem_of_find?_eq_some hfill
      rwa [List.mem_range] at hm
    by_cases hnm : cur.length ≤ tgt.length
    · omega
    · exfalso
      push_neg at hnm
      have hmult : 0 ≤ multTable cur tgt (cur.getD (cur.length - 1) StackSlot.junk) := by
        by_contra hneg
        push_neg at hneg
        have hpg : popGuard cur tgt = true := by
          unfold popGuard
          have hdec : decide (cur.length ≤ tgt.length) = false := by
            simp only [decide_eq_false_iff_not]
            omega
          rw [hdec]
          simp only [Bool.false_and, Bool.not_false, Bool.and_true]
          exact decide_eq_true hneg
        rw [hpg] at hpop
        exact Bool.noConfusion hpop
      obtain ⟨t', ht', hpred⟩ := top_surplus_swapDown cur tgt hnm hmult
      have hgate : isCompatible cur tgt (cur.length - 1) (cur.length - 1) = false := by
        unfold isCompatible
        have h2 : ¬(cur.length - 1 < tgt.length) := by omega
        simp [h2]
      unfold swapDownOffset at hsd
      rw [hgate] at hsd
      simp only [Bool.not_false, Bool.true_or, if_true] at hsd
      have hmem : t' ∈ List.range (min cur.length tgt.length) := by
        rw [List.mem_range, Nat.min_eq_right (Nat.le_of_lt hnm)]
        exact ht'
      have hnone := List.find?_eq_none.mp hsd t' hmem
      apply hnone
      simp only [Bool.and_eq_true] at hpred
      simp only [Bool.and_eq_true]
      exact ⟨⟨hpred.1, hpred.2.1⟩, hpred.2.2⟩
  · intro fuel tv vis hinv
    refine ⟨bringUpGo_dequeued_lt cur tgt fuel tv vis hinv, ?_⟩
    intro t dq hpush
    have hmem := bringUpGo_push_mem cur tgt fuel tv vis t dq hpush
    exact bringUpGo_dequeued_lt cur tgt fuel tv vis hinv t (by rw [hpush]; exact hmem)

/-- C3: every invocation of `shuffleStep` that reports a state change emits
exactly one of the three primitives exactly once (one hook invocation); a
`done` result carries no operations, so a step where the stop predicate
holds invokes none of them. -/
theorem shuffleStep_emits_exactly_one (cur tgt : List StackSlot) (ops : List Op)
    (c' : List StackSlot) (h : shuffleStep cur tgt = StepResult.step ops c') :
    ops.length = 1 :=
  shuffleStep_step_one cur tgt ops c' h

/-- C2: the shuffle loop performs at most 1000 state-changing steps (each
trace entry is one state-changing step); it ends in the non-termination
assertion exactly when all 1000 permitted steps performed an operation, and
a loop that stops earlier carries at most 999 operations. -/
theorem shuffle_iteration_cap (cur tgt : List StackSlot) :
    (∀ c o, shuffle cur tgt = ShuffleResult.nonTermination c o → o.length = 1000) ∧
    (∀ c o, shuffle cur tgt = ShuffleResult.ok c o → o.length ≤ 999) ∧
    (∀ c o, shuffle cur tgt = ShuffleResult.fail c o → o.length ≤ 999) ∧
    (∀ c o, shuffle cur tgt = ShuffleResult.fuelOut c o → o.length ≤ 999) := by
  obtain ⟨_, hnt, hok, hfail, hfuel⟩ := shuffleGo_length tgt 1000 cur
  refine ⟨fun c o h => hnt c o h, fun c o h => ?_, fun c o h => ?_, fun c o h => ?_⟩
  · have := hok c o h; omega
  · have := hfail c o h; omega
  · have := hfuel c o h; omega

/-- C8: every depth passed to the swap hook is at least 1: each clause of
`shuffleStep` that emits `swap (sourceSize - offset - 1)` chooses an offset
different from the top index, and the post-shuffle tail emits no swaps, so
`createStackLayout` never emits `swap 0`. -/
theorem swap_depth_ge_one (cur tgt : List StackSlot) :
    (∀ ops c' d, shuffleStep cur tgt = StepResult.step ops c' →
      Op.swap d ∈ ops → 1 ≤ d) ∧
    (∀ c ops d, createStackLayout cur tgt = Except.ok (c, ops) →
      Op.swap d ∈ ops → 1 ≤ d) := by
  constructor
  · intro ops c' d h hm
    rcases shuffleStep_step_shape cur tgt ops c' h with h1 | ⟨s, h1⟩ | ⟨off, hlt, hne, h1⟩ <;>
      subst h1
    · simp at hm
    · simp at hm
    · have : d = cur.length - off - 1 := by simpa using hm
      omega
  · intro c ops d h hm
    obtain ⟨c1, ops1, hsh, hops, _, _⟩ := csl_ok_ops cur tgt c ops h
    subst hops
    rcases List.mem_append.mp hm with h1 | h2
    · have hops1 : ops1 = (shuffleGo tgt 1000 cur).ops := by
        rw [shuffle] at hsh
        rw [hsh]
        rfl
      exact shuffleGo_swap_ge_one tgt 1000 cur d (hops1 ▸ h1)
    · exact absurd h2 (pushTailGo_no_swap tgt _ c1 d)

/-- C1: whenever `createStackLayout` returns normally, the resulting current
stack has the length of the target, holds the canonical junk marker at every
junk target position, and is identical to the target everywhere else. -/
theorem createStackLayout_ok_matches_target (cur tgt c : List StackSlot) (ops : List Op)
    (h : createStackLayout cur tgt = Except.ok (c, ops)) :
    c.length = tgt.length ∧
    ∀ i, i < tgt.length →
      ((tgt.getD i StackSlot.junk = StackSlot.junk →
        c.getD i StackSlot.junk = StackSlot.junk) ∧
       (tgt.getD i StackSlot.junk ≠ StackSlot.junk →
        c.getD i StackSlot.junk = tgt.getD i StackSlot.junk)) := by
  have hc := csl_ok_eq_target cur tgt c ops h
  subst hc
  exact ⟨rfl, fun i _ => ⟨fun hj => hj, fun _ => rfl⟩⟩

/-- C7: idempotence of `createStackLayout`: a second call on the transformed
stack and the same target emits zero primitives and leaves the stack
unchanged. -/
theorem createStackLayout_idempotent (cur tgt c : List StackSlot) (ops : List Op)
    (h : createStackLayout cur tgt = Except.ok (c, ops)) :
    createStackLayout c tgt = Except.ok (c, []) := by
  have hc := csl_ok_eq_target cur tgt c ops h
  subst hc
  have hstop : stopHolds c c = true := by
    rw [stopHolds, List.all_eq_true]
    intro i hi
    rw [List.mem_range] at hi
    simp [isCompatible, hi]
  have hstep : shuffleStep c c = StepResult.done := by
    unfold shuffleStep
    simp [hstop]
  have hgo : shuffleGo c 1000 c = ShuffleResult.ok c [] := by
    have h1000 : (1000 : Nat) = 999 + 1 := rfl
    rw [h1000, shuffleGo, hstep]
  unfold createStackLayout
  rw [shuffle, hgo]
  simp [Nat.sub_self, pushTailGo, normalizeZip_refl]

/-! Witnesses: each applies its claim theorem at a concrete input. -/

/-- Witness for C1 on `createStackLayout [a] [junk, a]`. -/
theorem createStackLayout_ok_matches_target_witness :
    ([StackSlot.junk, StackSlot.var 0] : List StackSlot).getD 0 StackSlot.junk =
      StackSlot.junk :=
  ((createStackLayout_ok_matches_target [StackSlot.var 0] [StackSlot.junk, StackSlot.var 0]
      [StackSlot.junk, StackSlot.var 0] [Op.pushOrDup (StackSlot.var 0)] (by rfl)).2 0
      (by decide)).1 (by rfl)

/-- Witness for C2 on `shuffle [a] [a]`, which stops immediately. -/
theorem shuffle_iteration_cap_witness : ([] : List Op).length ≤ 999 :=
  (shuffle_iteration_cap [StackSlot.var 0] [StackSlot.var 0]).2.1 [StackSlot.var 0] []
    (by rfl)

/-- Witness for C3 on the pop step of `shuffleStep [a, b] [a]`. -/
theorem shuffleStep_emits_exactly_one_witness : ([Op.pop] : List Op).length = 1 :=
  shuffleStep_emits_exactly_one [StackSlot.var 0, StackSlot.var 1] [StackSlot.var 0]
    [Op.pop] [StackSlot.var 0] (by rfl)

/-- Witness for C6 on `shuffleStep [a, b] [a]`. -/
theorem shuffleStep_pop_clause_witness :
    shuffleStep [StackSlot.var 0, StackSlot.var 1] [StackSlot.var 0] =
      StepResult.step [Op.pop] [StackSlot.var 0] :=
  shuffleStep_pop_clause [StackSlot.var 0, StackSlot.var 1] [StackSlot.var 0]
    (by decide) (by decide) (by decide)

/-- Witness for C7: rerunning after `createStackLayout [a] [junk, a]` emits
nothing. -/
theorem createStackLayout_idempotent_witness :
    createStackLayout [StackSlot.junk, StackSlot.var 0] [StackSlot.junk, StackSlot.var 0] =
      Except.ok ([StackSlot.junk, StackSlot.var 0], []) :=
  createStackLayout_idempotent [StackSlot.var 0] [StackSlot.junk, StackSlot.var 0]
    [StackSlot.junk, StackSlot.var 0] [Op.pushOrDup (StackSlot.var 0)] (by rfl)

/-- Witness for C8 on `[a, b]` to `[b, a]`, whose single step is `swap 1`. -/
theorem swap_depth_ge_one_witness : (1 : Nat) ≤ 1 ∧ (1 : Nat) ≤ 1 :=
  ⟨(swap_depth_ge_one [StackSlot.var 0, StackSlot.var 1]
      [StackSlot.var 1, StackSlot.var 0]).1
      [Op.swap 1] [StackSlot.var 1, StackSlot.var 0] 1 (by rfl) (by decide),
   (swap_depth_ge_one [StackSlot.var 0, StackSlot.var 1]
      [StackSlot.var 1, StackSlot.var 0]).2
      [StackSlot.var 1, StackSlot.var 0] [Op.swap 1] 1 (by rfl) (by decide)⟩

/-- Witness for C9 on `[a, b]` to `[b, b]`, where the fill clause fires at
offset 0 and the worklist walk pushes offset 0. -/
theorem bringUpTargetSlot_offsets_in_range_witness : (0 : Nat) < 2 ∧ (0 : Nat) < 2 :=
  ⟨(bringUpTargetSlot_offsets_in_range [StackSlot.var 0, StackSlot.var 1]
      [StackSlot.var 1, StackSlot.var 1] (by decide) (by decide) (by decide)).1 0 (by rfl),
   ((bringUpTargetSlot_offsets_in_range [StackSlot.var 0, StackSlot.var 1]
      [StackSlot.var 1, StackSlot.var 1] (by decide) (by decide) (by decide)).2 1 [0] []
      (by decide)).2 0 [0] (by rfl)⟩

/-- Witness for C10 on `shuffleStep [a, b] [a]`, which performs a pop. -/
theorem shuffleStep_nonempty_source_witness : (1 : Nat) ≤ 2 :=
  shuffleStep_nonempty_source [StackSlot.var 0, StackSlot.var 1] [StackSlot.var 0]
    (by decide)

end StackShuffle
